import Mathlib

/-!
Shallow embedding of the invoice field-extraction core of
`src/InvoiceRecong.py` (class `InvoiceRecognition`), together with proofs
about the claims of the specification.

Modelling conventions:
* Python strings are `List Char`; `String` literals are converted at the
  boundary with `lit`.
* The per-field result dictionary `invoice_info` is an association list
  (`Info`); Python dictionary writes are `setField` (update in place,
  append when the key is missing, exactly like `dict.__setitem__`) and
  reads are `getField`.
* Python floats parsed from currency tokens are modelled as exact
  rationals (`ℚ`, built with `mkRat`); the `f"{x:.2f}"` format is
  modelled by `formatAmount` (round half to even at two decimals).
* The regular expressions of the source are hand-compiled to matchers
  over `List Char`; `pyFindall` mirrors `re.findall` (leftmost,
  non-overlapping, greedy) and `pySearch` mirrors `re.search`
  (first match).  `scanF` uses explicit fuel (the text length) so that
  every function reduces inside the kernel.
-/

/-- Converts a string literal to the character-list representation used
throughout the embedding. -/
def lit (x : String) : List Char := x.toList

/-- Tests `lo ≤ n ≤ hi` as a `Bool`. -/
def between (lo hi n : Nat) : Bool := decide (lo ≤ n ∧ n ≤ hi)

/-- ASCII digit, the regex class `\d` restricted to ASCII as matched by
the source's patterns on the texts considered. -/
def isDigitC (c : Char) : Bool := between 48 57 c.toNat

/-- The regex class `[一-龥]` (CJK unified ideographs) used by the
source for company names, dates and person names. -/
def isCJK (c : Char) : Bool := between 0x4e00 0x9fa5 c.toNat

/-- The regex class `[A-Z0-9]` of the credit-code patterns. -/
def isUpperDigit (c : Char) : Bool := between 65 90 c.toNat || between 48 57 c.toNat

/-- ASCII letter, for the class `[A-Za-z...]`. -/
def isAsciiLetter (c : Char) : Bool := between 65 90 c.toNat || between 97 122 c.toNat

/-- The regex class `[A-Za-z一-龥]` of the second company
pattern. -/
def isLetterCJK (c : Char) : Bool := isAsciiLetter c || isCJK c

/-- Python word character (`\w`): modelled as ASCII alphanumerics,
underscore and CJK ideographs (the scripts appearing in this domain). -/
def isWordC (c : Char) : Bool := isAsciiLetter c || isDigitC c || c == '_' || isCJK c

/-- The regex class `[\d,]` of the currency-amount pattern. -/
def isDigitComma (c : Char) : Bool := isDigitC c || c == ','

/-- Python whitespace (`str.strip` and the regex class `\s` on `str`). -/
def isSpaceC (c : Char) : Bool :=
  let n := c.toNat
  between 9 13 n || between 28 31 n || n == 32 || n == 0x85 || n == 0xa0 ||
  n == 0x1680 || between 0x2000 0x200a n || n == 0x2028 || n == 0x2029 ||
  n == 0x202f || n == 0x205f || n == 0x3000

/-- Python `str.strip()`. -/
def strip (l : List Char) : List Char :=
  ((l.dropWhile isSpaceC).reverse.dropWhile isSpaceC).reverse

/-- Python `text.split('\n')`. -/
def splitNl : List Char → List (List Char)
  | [] => [[]]
  | c :: cs =>
    match splitNl cs with
    | [] => [[c]]
    | r :: rs => if c = '\n' then [] :: r :: rs else (c :: r) :: rs

/-- Tests whether `pat` is an initial segment of `l`. -/
def litAt : List Char → List Char → Bool
  | [], _ => true
  | _ :: _, [] => false
  | p :: ps, c :: cs => p == c && litAt ps cs

/-- Python's substring test `pat in l`. -/
def containsSub (pat : List Char) : List Char → Bool
  | [] => litAt pat []
  | c :: cs => litAt pat (c :: cs) || containsSub pat cs

/-- Driver for `re.findall`: at each position try the matcher (which
returns the captured group and the total number of characters consumed,
always at least one); on success continue after the match, otherwise
advance one character.  `fuel` bounds the recursion; `pyFindall` supplies
`l.length`, which is always sufficient. -/
def scanF (m : List Char → Option (List Char × Nat)) : Nat → List Char → List (List Char)
  | 0, _ => []
  | _ + 1, [] => []
  | fuel + 1, c :: cs =>
    match m (c :: cs) with
    | some (g, n) => g :: scanF m fuel (cs.drop (n - 1))
    | none => scanF m fuel cs

/-- Python `re.findall(pattern, text)` for a hand-compiled matcher. -/
def pyFindall (m : List Char → Option (List Char × Nat)) (l : List Char) : List (List Char) :=
  scanF m l.length l

/-- Python `re.search(pattern, text)`: group of the leftmost match. -/
def pySearch (m : List Char → Option (List Char × Nat)) : List Char → Option (List Char)
  | [] =>
    match m [] with
    | some (g, _) => some g
    | none => none
  | c :: cs =>
    match m (c :: cs) with
    | some (g, _) => some g
    | none => pySearch m cs

/-- Matcher for a literal pattern (no metacharacters): the pattern itself
is the group. -/
def litMatch (pat : List Char) (l : List Char) : Option (List Char × Nat) :=
  if pat ≠ [] ∧ litAt pat l then some (pat, pat.length) else none

/-- The result dictionary `invoice_info` of the source: an ordered
key-value list, mirroring a Python `dict`. -/
abbrev Info := List (List Char × List Char)

/-- Python `invoice_info[k]` (defaulting to the empty string; the source
only ever reads keys it has initialised). -/
def getField : Info → List Char → List Char
  | [], _ => []
  | (k', v) :: rest, k => if k' = k then v else getField rest k

/-- Python `invoice_info[k] = v`: replace in place, append if missing. -/
def setField : Info → List Char → List Char → Info
  | [], k, v => [(k, v)]
  | (k', v') :: rest, k, v =>
    if k' = k then (k, v) :: rest else (k', v') :: setField rest k v

def kNumber : List Char := lit "发票号码"
def kDate : List Char := lit "开票日期"
def kBuyerName : List Char := lit "购买方名称"
def kBuyerCode : List Char := lit "购买方统一社会信用代码"
def kSellerName : List Char := lit "销售方名称"
def kSellerCode : List Char := lit "销售方统一社会信用代码"
def kItemName : List Char := lit "项目名称"
def kSpecModel : List Char := lit "规格型号"
def kTaxAmount : List Char := lit "税额"
def kTotalAmount : List Char := lit "价税总计"
def kIssuer : List Char := lit "开票人"

/-- The dictionary initialised at the top of `parse_invoice_info`, with
its eleven fields in source order, all empty. -/
def initInvoiceInfo : Info :=
  [(kNumber, []), (kDate, []), (kBuyerName, []), (kBuyerCode, []),
   (kSellerName, []), (kSellerCode, []), (kItemName, []), (kSpecModel, []),
   (kTaxAmount, []), (kTotalAmount, []), (kIssuer, [])]

/-- Matcher for the currency-amount pattern `[¥￥]([\d,]+\.?\d*)` of
`extract_amount_info`, returning the captured group. -/
def matchYenAmount : List Char → Option (List Char × Nat)
  | [] => none
  | c :: cs =>
    if c == '¥' || c == '￥' then
      let dc := cs.takeWhile isDigitComma
      if dc.isEmpty then none
      else
        match cs.drop dc.length with
        | '.' :: r2 =>
          let ds := r2.takeWhile isDigitC
          some (dc ++ '.' :: ds, 1 + dc.length + 1 + ds.length)
        | _ => some (dc, 1 + dc.length)
    else none

/-- Numeric value of a digit string. -/
def natOfDigits (l : List Char) : Nat := l.foldl (fun n c => 10 * n + (c.toNat - 48)) 0

/-- Python `float(match.replace(',', ''))` on an amount group, `none`
when `float` would raise (no digits left). -/
def parseAmount (g : List Char) : Option ℚ :=
  let st := g.filter (fun c => !(c == ','))
  let ip := st.takeWhile isDigitC
  let fp :=
    match st.drop ip.length with
    | '.' :: r => r
    | _ => []
  if ip.isEmpty && fp.isEmpty then none
  else some (mkRat (natOfDigits ip * 10 ^ fp.length + natOfDigits fp) (10 ^ fp.length))

/-- The amount pool of `extract_amount_info`: every line is stripped,
scanned for currency-marked tokens, and each parsable token contributes
its value, in line order. -/
def amountPool (text : List Char) : List ℚ :=
  ((splitNl text).map (fun l => (pyFindall matchYenAmount (strip l)).filterMap parseAmount)).flatten

/-- The band test `100 <= amount <= 1000` of `extract_amount_info`. -/
def inBand (a : ℚ) : Bool := decide ((100 : ℚ) ≤ a ∧ a ≤ (1000 : ℚ))

/-- Python `max(l)` on a non-empty list (0 is never used: every call
site guards non-emptiness). -/
def pyMax : List ℚ → ℚ
  | [] => 0
  | a :: as => as.foldl max a

/-- Decimal digits of a natural number (fuelled so the kernel can
evaluate it). -/
def natDigitsAux : Nat → Nat → List Char
  | 0, _ => []
  | fuel + 1, n =>
    if n < 10 then [Char.ofNat (48 + n)]
    else natDigitsAux fuel (n / 10) ++ [Char.ofNat (48 + n % 10)]

def natChars (n : Nat) : List Char := natDigitsAux (n + 1) n

/-- Python `f"{x:.2f}"` on a non-negative amount, modelled over exact
rationals: round half to even at two decimals, then print with exactly
two fractional digits. -/
def formatAmount (q : ℚ) : List Char :=
  let n := (q.num * 100).toNat
  let d := q.den
  let fl := n / d
  let r := n % d
  let cents :=
    if d < 2 * r then fl + 1
    else if 2 * r < d then fl
    else if fl % 2 = 0 then fl else fl + 1
  natChars (cents / 100) ++ '.' :: [Char.ofNat (48 + cents / 10 % 10), Char.ofNat (48 + cents % 10)]

/-- The hardcoded literal amounts of `extract_amount_info`
(`specific_patterns`): each occurrence of `¥3992.00`, `¥225.96`,
`¥3766.04` in the raw text contributes its value, grouped by pattern in
pattern order. -/
def hardcodedAmounts (text : List Char) : List ℚ :=
  (pyFindall (litMatch (lit "¥3992.00")) text).map (fun _ => mkRat 3992 1)
  ++ (pyFindall (litMatch (lit "¥225.96")) text).map (fun _ => mkRat 22596 100)
  ++ (pyFindall (litMatch (lit "¥3766.04")) text).map (fun _ => mkRat 376604 100)

/-- Texts on which the hardcoded-literal override of
`extract_amount_info` does not fire. -/
def noHardcoded (text : List Char) : Prop := hardcodedAmounts text = []

instance (text : List Char) : Decidable (noHardcoded text) := by
  unfold noHardcoded; infer_instance

/-- The method `extract_amount_info` of the source: collect the amount
pool, sort it ascending in place, assign the maximum to the total field,
assign the first in-band value of the sorted pool to the tax field, then
apply the hardcoded-literal override block. -/
def extract_amount_info (text : List Char) (info : Info) : Info :=
  let amounts := amountPool text
  let info1 :=
    if amounts.isEmpty then info
    else
      let sorted := List.insertionSort (fun a b : ℚ => a ≤ b) amounts
      let infoT := setField info kTotalAmount (formatAmount (pyMax sorted))
      match sorted.find? inBand with
      | some a => setField infoT kTaxAmount (formatAmount a)
      | none => infoT
  let found := List.insertionSort (fun a b : ℚ => a ≤ b) (hardcodedAmounts text)
  if found.isEmpty then info1
  else
    let info2 :=
      if mkRat 3992 1 ∈ found then setField info1 kTotalAmount (lit "3992.00")
      else setField info1 kTotalAmount (formatAmount (pyMax found))
    if mkRat 22596 100 ∈ found then setField info2 kTaxAmount (lit "225.96")
    else if 1 < found.length then setField info2 kTaxAmount (formatAmount (found.getD 1 0))
    else info2

/-- Case-insensitive prefix test (`re.IGNORECASE`); the pattern is given
in lower case. -/
def ciAt : List Char → List Char → Bool
  | [], _ => true
  | _ :: _, [] => false
  | p :: ps, c :: cs =>
    (p == (if between 65 90 c.toNat then Char.ofNat (c.toNat + 32) else c)) && ciAt ps cs

/-- Matcher for a labelled digit pattern such as
`发票号码[：:]\s*([0-9]+)`: the label, one full- or half-width colon,
optional whitespace, then the captured digit run. -/
def matchLabelNum (label : List Char) (l : List Char) : Option (List Char × Nat) :=
  if litAt label l then
    match l.drop label.length with
    | c :: rest =>
      if c == '：' || c == ':' then
        let sp := rest.takeWhile isSpaceC
        let ds := (rest.drop sp.length).takeWhile isDigitC
        if ds.isEmpty then none
        else some (ds, label.length + 1 + sp.length + ds.length)
      else none
    | [] => none
  else none

/-- Matcher for `Invoice\s*No[.:]?\s*([0-9]+)` (compiled with
`re.IGNORECASE`). -/
def matchInvoiceNoPat (l : List Char) : Option (List Char × Nat) :=
  if ciAt (lit "invoice") l then
    let r1 := l.drop 7
    let sp1 := r1.takeWhile isSpaceC
    let r2 := r1.drop sp1.length
    if ciAt (lit "no") r2 then
      let r3 := r2.drop 2
      let dot := match r3 with
        | c :: _ => if c == '.' || c == ':' then 1 else 0
        | [] => 0
      let r4 := r3.drop dot
      let sp2 := r4.takeWhile isSpaceC
      let ds := (r4.drop sp2.length).takeWhile isDigitC
      if ds.isEmpty then none
      else some (ds, 7 + sp1.length + 2 + dot + sp2.length + ds.length)
    else none
  else none

/-- Matcher for a bounded greedy character run such as `(\d{8,20})` or
`([A-Z0-9]{15,18})`: at least `lo` characters of the class, greedily up
to `hi`. -/
def matchRunRange (p : Char → Bool) (lo hi : Nat) (l : List Char) : Option (List Char × Nat) :=
  let run := l.takeWhile p
  if lo ≤ run.length then
    let g := run.take hi
    some (g, g.length)
  else none

/-- Matcher for an unbounded greedy run such as `(\d{8,})`. -/
def matchRunMin (p : Char → Bool) (lo : Nat) (l : List Char) : Option (List Char × Nat) :=
  let run := l.takeWhile p
  if lo ≤ run.length then some (run, run.length) else none

/-- Matcher for a labelled credit-code pattern such as
`统一社会信用代码[：:]\s*([A-Z0-9]{15,18})`. -/
def matchLabelCode (label : List Char) (l : List Char) : Option (List Char × Nat) :=
  if litAt label l then
    match l.drop label.length with
    | c :: rest =>
      if c == '：' || c == ':' then
        let sp := rest.takeWhile isSpaceC
        let run := (rest.drop sp.length).takeWhile isUpperDigit
        if 15 ≤ run.length then
          let g := run.take 18
          some (g, label.length + 1 + sp.length + g.length)
        else none
      else none
    | [] => none
  else none

/-- The length filter `8 <= len(match) <= 20` of
`extract_invoice_number`. -/
def validNum (m : List Char) : Bool := between 8 20 m.length

/-- First match of one pattern passing the length filter (the inner
loop of `extract_invoice_number`). -/
def firstValidNum (ms : List (List Char)) : Option (List Char) := ms.find? validNum

/-- The method `extract_invoice_number`: four patterns in source order
(labelled `发票号码`, labelled `发票代码`, the English `Invoice No`
pattern, then a bare 8-20 digit run); the first match passing the
length filter wins and the method returns at once. -/
def extract_invoice_number (text : List Char) (info : Info) : Info :=
  match (firstValidNum (pyFindall (matchLabelNum (lit "发票号码")) text)).or
      ((firstValidNum (pyFindall (matchLabelNum (lit "发票代码")) text)).or
        ((firstValidNum (pyFindall matchInvoiceNoPat text)).or
          (firstValidNum (pyFindall (matchRunRange isDigitC 8 20) text)))) with
  | some m => setField info kNumber m
  | none => info

/-- Greedy `\d{1,2}` immediately followed by the literal `sep`, for the
date patterns; returns the consumed characters (separator included) and
the rest. -/
def take2or1 (sep : Char) (l : List Char) : Option (List Char × List Char) :=
  match l with
  | a :: b :: c :: rest =>
    if isDigitC a && isDigitC b && c == sep then some ([a, b, sep], rest)
    else if isDigitC a && b == sep then some ([a, sep], c :: rest)
    else none
  | [a, b] => if isDigitC a && b == sep then some ([a, sep], []) else none
  | _ => none

/-- Greedy trailing `\d{1,2}` of the slash, dash and dot date
patterns. -/
def take2or1End (l : List Char) : Option (List Char × List Char) :=
  match l with
  | a :: b :: rest =>
    if isDigitC a && isDigitC b then some ([a, b], rest)
    else if isDigitC a then some ([a], b :: rest)
    else none
  | [a] => if isDigitC a then some ([a], []) else none
  | [] => none

/-- Matcher for the bare CJK date pattern `(\d{4}年\d{1,2}月\d{1,2}日)`. -/
def matchDateCJK (l : List Char) : Option (List Char × Nat) :=
  match l with
  | a :: b :: c :: d :: e :: rest =>
    if isDigitC a && isDigitC b && isDigitC c && isDigitC d && e == '年' then
      match take2or1 '月' rest with
      | some (m, r2) =>
        match take2or1 '日' r2 with
        | some (dd, _) =>
          let g := [a, b, c, d, '年'] ++ m ++ dd
          some (g, g.length)
        | none => none
      | none => none
    else none
  | _ => none

/-- Matcher for the separator date patterns `(\d{4}/\d{1,2}/\d{1,2})`,
dash and dot variants. -/
def matchDateSep (sep : Char) (l : List Char) : Option (List Char × Nat) :=
  match l with
  | a :: b :: c :: d :: e :: rest =>
    if isDigitC a && isDigitC b && isDigitC c && isDigitC d && e == sep then
      match take2or1 sep rest with
      | some (m, r2) =>
        match take2or1End r2 with
        | some (dd, _) =>
          let g := [a, b, c, d, sep] ++ m ++ dd
          some (g, g.length)
        | none => none
      | none => none
    else none
  | _ => none

/-- Matcher for the labelled date pattern
`开票日期[：:]\s*(\d{4}年\d{1,2}月\d{1,2}日)`; the group is the inner
date. -/
def matchDateLabelled (l : List Char) : Option (List Char × Nat) :=
  if litAt (lit "开票日期") l then
    match l.drop 4 with
    | c :: rest =>
      if c == '：' || c == ':' then
        let sp := rest.takeWhile isSpaceC
        match matchDateCJK (rest.drop sp.length) with
        | some (g, n) => some (g, 4 + 1 + sp.length + n)
        | none => none
      else none
    | [] => none
  else none

/-- The method `extract_invoice_date`: patterns in source order — the
bare CJK date FIRST, then the labelled CJK date, then slash, dash, dot;
`re.search` per pattern, first match returned verbatim. -/
def extract_invoice_date (text : List Char) (info : Info) : Info :=
  match pySearch matchDateCJK text with
  | some d => setField info kDate d
  | none =>
    match pySearch matchDateLabelled text with
    | some d => setField info kDate d
    | none =>
      match pySearch (matchDateSep '/') text with
      | some d => setField info kDate d
      | none =>
        match pySearch (matchDateSep '-') text with
        | some d => setField info kDate d
        | none =>
          match pySearch (matchDateSep '.') text with
          | some d => setField info kDate d
          | none => info

def companyAlts1 : List (List Char) :=
  [lit "公司", lit "企业", lit "集团", lit "有限责任公司", lit "股份有限公司"]

def companyAlts2 : List (List Char) :=
  [lit "公司", lit "企业", lit "集团", lit "有限", lit "责任", lit "股份"]

/-- First alternative of the suffix alternation matching at offset `k`. -/
def altAt (alts : List (List Char)) (l : List Char) (k : Nat) : Option (List Char) :=
  alts.find? (fun a => litAt a (l.drop k))

/-- Greedy backtracking of a company pattern
`[class]{min,}(?:alt|...)`: the class run is consumed as long as
possible, then shortened one character at a time (never below `minLen`)
until one suffix alternative fits. -/
def bestSuffix (alts : List (List Char)) (minLen : Nat) (l : List Char) : Nat → Option (List Char × Nat)
  | 0 => none
  | k + 1 =>
    if minLen ≤ k + 1 then
      match altAt alts l (k + 1) with
      | some a => some (l.take (k + 1 + a.length), k + 1 + a.length)
      | none => bestSuffix alts minLen l k
    else none

def matchCompany (cls : Char → Bool) (alts : List (List Char)) (minLen : Nat)
    (l : List Char) : Option (List Char × Nat) :=
  bestSuffix alts minLen l (l.takeWhile cls).length

/-- Matcher for `([一-龥]{4,}(?:公司|企业|集团|有限责任公司|股份有限公司))`. -/
def matchCompany1 : List Char → Option (List Char × Nat) :=
  matchCompany isCJK companyAlts1 4

/-- Matcher for `([A-Za-z一-龥]{6,}(?:公司|企业|集团|有限|责任|股份))`. -/
def matchCompany2 : List Char → Option (List Char × Nat) :=
  matchCompany isLetterCJK companyAlts2 6

/-- The candidate accumulation of `extract_company_info`:
appends when the length filter passes and the entry is new. -/
def addIfNew (minLen : Nat) (acc : List (List Char)) (m : List Char) : List (List Char) :=
  if minLen < m.length ∧ m ∉ acc then acc ++ [m] else acc

/-- All candidate company names: the two patterns in source order over
the whole text, filtered by `len(match) > 5`, deduplicated preserving
first-seen order. -/
def companiesOf (text : List Char) : List (List Char) :=
  ((pyFindall matchCompany1 text) ++ (pyFindall matchCompany2 text)).foldl (addIfNew 5) []

def addIfNewCode (acc : List (List Char)) (m : List Char) : List (List Char) :=
  if m ∉ acc then acc ++ [m] else acc

/-- All candidate credit codes: bare `[A-Z0-9]{15,18}` runs first, then
the two labelled patterns, deduplicated preserving first-seen order. -/
def codesOf (text : List Char) : List (List Char) :=
  ((pyFindall (matchRunRange isUpperDigit 15 18) text)
    ++ (pyFindall (matchLabelCode (lit "统一社会信用代码")) text)
    ++ (pyFindall (matchLabelCode (lit "纳税人识别号")) text)).foldl addIfNewCode []

def buyerKws : List (List Char) := [lit "购买方", lit "买方", lit "收票方", lit "付款方"]

def sellerKws : List (List Char) := [lit "销售方", lit "卖方", lit "开票方", lit "收款方"]

def lineHasKw (kws : List (List Char)) (l : List Char) : Bool :=
  kws.any (fun k => containsSub k l)

/-- The window search of `extract_company_info`: lines
`max(0, i-3) .. min(len(lines), i+5) - 1`, and for each such line the
candidates in pool order; first hit wins. -/
def windowFind (lines : List (List Char)) (i : Nat) (cs : List (List Char)) : Option (List Char) :=
  (List.range' (i - 3) (min lines.length (i + 5) - (i - 3))).findSome?
    (fun j => cs.find? (fun c => containsSub c (lines.getD j [])))

/-- One keyword block of the per-line role loop: if the line contains a
role keyword and the role field is still empty, assign the first
candidate found in the window and remove it from the pool. -/
def roleStepOne (kws : List (List Char)) (key : List Char) (lines : List (List Char))
    (st : List (List Char) × Info) (i : Nat) (l : List Char) : List (List Char) × Info :=
  if lineHasKw kws l ∧ getField st.2 key = [] then
    match windowFind lines i st.1 with
    | some c => (st.1.erase c, setField st.2 key c)
    | none => st
  else st

/-- One iteration of the source's role loop: the buyer-keyword block,
then the seller-keyword block, over the SAME line. -/
def roleStep (lines : List (List Char)) (st : List (List Char) × Info) (i : Nat)
    (l : List Char) : List (List Char) × Info :=
  roleStepOne sellerKws kSellerName lines
    (roleStepOne buyerKws kBuyerName lines st i l) i l

/-- The single pass of the source over all lines, both keyword blocks
per line. -/
def rolePass (lines : List (List Char)) :
    List (List Char) → Nat → List (List Char) × Info → List (List Char) × Info
  | [], _, st => st
  | l :: ls, i, st => rolePass lines ls (i + 1) (roleStep lines st i l)

/-- A pass over all lines for a single role, used by the two-pass model
below. -/
def rolePassOne (kws : List (List Char)) (key : List Char) (lines : List (List Char)) :
    List (List Char) → Nat → List (List Char) × Info → List (List Char) × Info
  | [], _, st => st
  | l :: ls, i, st => rolePassOne kws key lines ls (i + 1) (roleStepOne kws key lines st i l)

/-- The positional name fallback of `extract_company_info`: the
candidates still in the pool and distinct from both current role
values; the first remaining one fills an empty buyer, the SECOND
remaining one fills an empty seller (only when at least two remain). -/
def nameFallbackStep (st : List (List Char) × Info) : Info :=
  let info1 := st.2
  let remaining := st.1.filter
    (fun c => !(c == getField info1 kBuyerName || c == getField info1 kSellerName))
  if remaining.isEmpty then info1
  else
    let infoB :=
      if getField info1 kBuyerName = [] then setField info1 kBuyerName (remaining.headD [])
      else info1
    if getField infoB kSellerName = [] ∧ 1 < remaining.length then
      setField infoB kSellerName (remaining.getD 1 [])
    else infoB

/-- The positional credit-code assignment of `extract_company_info`. -/
def codeAssignStep (text : List Char) (info : Info) : Info :=
  let codes := codesOf text
  if codes.isEmpty then info
  else
    let infoC :=
      if getField info kBuyerCode = [] then setField info kBuyerCode (codes.headD [])
      else info
    if 1 < codes.length ∧ getField infoC kSellerCode = [] then
      setField infoC kSellerCode (codes.getD 1 [])
    else infoC

/-- The tail of `extract_company_info` after the keyword loop: the
positional fallback over the remaining unclaimed candidates, then the
positional credit-code assignment. -/
def companyAssignTail (text : List Char) (st : List (List Char) × Info) : Info :=
  codeAssignStep text (nameFallbackStep st)

/-- The method `extract_company_info` of the source: candidate
collection, ONE pass over the lines running the buyer block then the
seller block per line, then the positional fallbacks. -/
def extract_company_info (text : List Char) (info : Info) : Info :=
  let lines := splitNl text
  companyAssignTail text (rolePass lines lines 0 (companiesOf text, info))

/-- Modelled from the spec: the specification's §4.4 step 3 describes
role assignment as a buyer pass completing over ALL lines before the
seller pass starts; candidate collection and the fallbacks are the same
as in the source.  Used only to compare against the source's
single-pass `extract_company_info`. -/
def extract_company_info_twoPass (text : List Char) (info : Info) : Info :=
  let lines := splitNl text
  companyAssignTail text
    (rolePassOne sellerKws kSellerName lines lines 0
      (rolePassOne buyerKws kBuyerName lines lines 0 (companiesOf text, info)))

def excludedNames : List (List Char) :=
  [lit "开票人", lit "复核", lit "收款", lit "销售", lit "购买", lit "合计",
   lit "税额", lit "金额", lit "单价", lit "数量"]

/-- The standalone-name test of `extract_other_fields`: the stripped
line is a bare 2-4 character CJK run and no exclusion word occurs in
it (the source's membership test is subsumed by its substring test). -/
def standaloneName (l : List Char) : Bool :=
  between 2 4 l.length && l.all isCJK &&
    !(excludedNames.any (fun ex => containsSub ex l))

/-- Matcher for the fallback pattern `张\w+` (greedy). -/
def matchZhangRun (l : List Char) : Option (List Char × Nat) :=
  match l with
  | c :: cs =>
    if c == '张' then
      let run := cs.takeWhile isWordC
      if run.isEmpty then none else some (c :: run, 1 + run.length)
    else none
  | [] => none

/-- Matcher for the fallback pattern `[一-龥]{2,3}` (greedy). -/
def matchCJKPair (l : List Char) : Option (List Char × Nat) :=
  match l with
  | a :: b :: c :: _ =>
    if isCJK a && isCJK b then
      if isCJK c then some ([a, b, c], 3) else some ([a, b], 2)
    else none
  | [a, b] => if isCJK a && isCJK b then some ([a, b], 2) else none
  | _ => none

/-- The length filter `2 <= len(match) <= 4` of the issuer fallback. -/
def nameLenOk (m : List Char) : Bool := between 2 4 m.length

/-- The issuer fallback of `extract_other_fields`: three patterns in
source order (the literal `张英豪`, then `张\w+`, then `[一-龥]{2,3}`);
per pattern, the first match of length 2-4 wins. -/
def fallbackName (text : List Char) : Option (List Char) :=
  ((pyFindall (litMatch (lit "张英豪")) text).find? nameLenOk).or
    (((pyFindall matchZhangRun text).find? nameLenOk).or
      ((pyFindall matchCJKPair text).find? nameLenOk))

def specKws : List (List Char) :=
  [lit "次", lit "个", lit "件", lit "台", lit "套", lit "张", lit "份"]

/-- The item-line predicate of `extract_other_fields`: a `*` together
with a service, fee or sale keyword. -/
def itemLinePred (l : List Char) : Bool :=
  containsSub (lit "*") l &&
    (containsSub (lit "服务") l || containsSub (lit "费") l || containsSub (lit "销售") l)

/-- First block of `extract_other_fields`: the item name from the first
item-marked line, stored stripped. -/
def itemStep (text : List Char) (info : Info) : Info :=
  match (splitNl text).find? itemLinePred with
  | some l => setField info kItemName (strip l)
  | none => info

/-- Second block of `extract_other_fields`: the issuer from the first
standalone 2-4 character CJK line passing the exclusion check. -/
def issuerScanStep (text : List Char) (info : Info) : Info :=
  match (splitNl text).find? (fun l => standaloneName (strip l)) with
  | some l => setField info kIssuer (strip l)
  | none => info

/-- Third block of `extract_other_fields`: if the issuer field is still
empty, the fallback patterns run over the whole text. -/
def issuerFallbackStep (text : List Char) (info : Info) : Info :=
  if getField info kIssuer = [] then
    match fallbackName text with
    | some n => setField info kIssuer n
    | none => info
  else info

/-- Fourth block of `extract_other_fields`: the first unit keyword
occurring anywhere in the text. -/
def specStep (text : List Char) (info : Info) : Info :=
  match specKws.find? (fun k => containsSub k text) with
  | some k => setField info kSpecModel k
  | none => info

/-- The method `extract_other_fields` of the source: item line, then the
standalone issuer scan, then the issuer fallback (which DOES run when
the scan found nothing), then the unit keyword. -/
def extract_other_fields (text : List Char) (info : Info) : Info :=
  specStep text (issuerFallbackStep text (issuerScanStep text (itemStep text info)))

inductive InvoiceType
  | standard
  | shanghai
  | complex
  | generic

/-- The method `detect_invoice_type`: distinguishing substrings in
priority order. -/
def detect_invoice_type (text : List Char) : InvoiceType :=
  if containsSub (lit "上海增值税") text then .shanghai
  else if containsSub (lit "机器编号") text && containsSub (lit "校验码") text then .complex
  else if containsSub (lit "电子发票（普通发票）") text then .standard
  else .generic

/-- The method `parse_generic_invoice`: the five extractors in source
order (its try/except never fires: every step is total). -/
def parse_generic_invoice (text : List Char) (info : Info) : Info :=
  extract_other_fields text
    (extract_amount_info text
      (extract_company_info text
        (extract_invoice_date text
          (extract_invoice_number text info))))

/-- The window loop of `parse_shanghai_invoice`: lines
`max(0, i-2) .. min(len(lines), i+3) - 1`, searching each raw line for
`(\d{8,})` and claiming the first hit while the field is empty. -/
def shanghaiWindow (lines : List (List Char)) (i : Nat) (info : Info) : Info :=
  (List.range' (i - 2) (min lines.length (i + 3) - (i - 2))).foldl
    (fun acc j =>
      match pySearch (matchRunMin isDigitC 8) (lines.getD j []) with
      | some m =>
        if 8 ≤ m.length ∧ getField acc kNumber = [] then setField acc kNumber m else acc
      | none => acc) info

def shanghaiPass (lines : List (List Char)) : List (List Char) → Nat → Info → Info
  | [], _, info => info
  | l :: ls, i, info =>
    shanghaiPass lines ls (i + 1)
      (if containsSub (lit "发票号码") (strip l) || containsSub (lit "发票代码") (strip l) then
        shanghaiWindow lines i info
      else info)

/-- The method `parse_shanghai_invoice`: the special number scan, then
the generic parse. -/
def parse_shanghai_invoice (text : List Char) (info : Info) : Info :=
  parse_generic_invoice text (shanghaiPass (splitNl text) (splitNl text) 0 info)

def parse_standard_invoice (text : List Char) (info : Info) : Info :=
  parse_generic_invoice text info

def parse_complex_invoice (text : List Char) (info : Info) : Info :=
  parse_generic_invoice text info

/-- The public entry point `parse_invoice_info`: initialise the eleven
fields, detect the type, dispatch. -/
def parse_invoice_info (text : List Char) : Info :=
  match detect_invoice_type text with
  | .standard => parse_standard_invoice text initInvoiceInfo
  | .shanghai => parse_shanghai_invoice text initInvoiceInfo
  | .complex => parse_complex_invoice text initInvoiceInfo
  | .generic => parse_generic_invoice text initInvoiceInfo

/-- The sheet-name truncation of `process_invoices` (Excel's 31
character limit). -/
def sheetName (base : List Char) : List Char := base.take 31

/-- The per-document loop of `process_invoices`.  Directory listing,
PDF text extraction and the Excel sink are external I/O collaborators;
a document is given here as (base name without extension, extracted
text), where a failed extraction yields the empty text.  The source
SKIPS a document whose extracted text is empty (`continue`), so such a
document produces no output entry. -/
def process_invoices (docs : List (List Char × List Char)) : List (List Char × Info) :=
  docs.foldr
    (fun d acc => if d.2 = [] then acc else (sheetName d.1, parse_invoice_info d.2) :: acc) []

theorem getField_setField_self (i : Info) (k v : List Char) :
    getField (setField i k v) k = v := by
  induction i with
  | nil => simp [setField, getField]
  | cons e rest ih =>
    obtain ⟨k', v'⟩ := e
    by_cases h : k' = k
    · subst h; simp [setField, getField]
    · simp [setField, getField, h, ih]

theorem getField_setField_ne (i : Info) (k k' v : List Char) (h : k' ≠ k) :
    getField (setField i k v) k' = getField i k' := by
  induction i with
  | nil =>
    show (if k = k' then v else []) = getField [] k'
    rw [if_neg (Ne.symm h)]
    rfl
  | cons e rest ih =>
    obtain ⟨k0, v0⟩ := e
    by_cases h0 : k0 = k
    · subst h0
      simp [setField, getField, Ne.symm h]
    · simp [setField, getField, h0, ih]

theorem setField_map_fst (i : Info) (k v : List Char) (h : k ∈ i.map Prod.fst) :
    (setField i k v).map Prod.fst = i.map Prod.fst := by
  induction i with
  | nil => simp at h
  | cons e rest ih =>
    obtain ⟨k0, v0⟩ := e
    by_cases h0 : k0 = k
    · subst h0; simp [setField]
    · simp only [List.map_cons, List.mem_cons] at h
      rcases h with h | h
      · exact absurd h.symm h0
      · simp [setField, h0, ih h]

instance : Std.Antisymm (fun a b : ℚ => a ≤ b) := ⟨fun h h' => le_antisymm h h'⟩

theorem qmin?_eq_some_iff (l : List ℚ) (m : ℚ) :
    l.min? = some m ↔ m ∈ l ∧ ∀ b ∈ l, m ≤ b :=
  List.min?_eq_some_iff (fun a => le_refl a) (fun a b => min_choice a b) (fun _ _ _ => le_min_iff)

theorem qmax?_eq_some_iff (l : List ℚ) (m : ℚ) :
    l.max? = some m ↔ m ∈ l ∧ ∀ b ∈ l, b ≤ m :=
  List.max?_eq_some_iff (fun a => le_refl a) (fun a b => max_choice a b) (fun _ _ _ => max_le_iff)

theorem qmin?_perm {l l' : List ℚ} (h : l.Perm l') : l.min? = l'.min? := by
  cases hm : l'.min? with
  | none =>
    rw [List.min?_eq_none_iff] at hm
    subst hm
    rw [List.min?_eq_none_iff]
    exact h.eq_nil
  | some m =>
    rw [qmin?_eq_some_iff] at hm ⊢
    exact ⟨h.mem_iff.2 hm.1, fun b hb => hm.2 b (h.mem_iff.1 hb)⟩

theorem qmax?_perm {l l' : List ℚ} (h : l.Perm l') : l.max? = l'.max? := by
  cases hm : l'.max? with
  | none =>
    rw [List.max?_eq_none_iff] at hm
    subst hm
    rw [List.max?_eq_none_iff]
    exact h.eq_nil
  | some m =>
    rw [qmax?_eq_some_iff] at hm ⊢
    exact ⟨h.mem_iff.2 hm.1, fun b hb => hm.2 b (h.mem_iff.1 hb)⟩

theorem find?_eq_head?_filter {α : Type} (p : α → Bool) (l : List α) :
    l.find? p = (l.filter p).head? := by
  induction l with
  | nil => rfl
  | cons a as ih =>
    by_cases h : p a = true
    · rw [List.find?_cons_of_pos _ h, List.filter_cons_of_pos h]; rfl
    · rw [List.find?_cons_of_neg _ h, List.filter_cons_of_neg h, ih]

theorem foldl_min_of_le (a : ℚ) (as : List ℚ) (h : ∀ x ∈ as, a ≤ x) :
    as.foldl min a = a := by
  induction as generalizing a with
  | nil => rfl
  | cons b bs ih =>
    have hb : min a b = a := min_eq_left (h b (by simp))
    simp only [List.foldl, hb]
    exact ih a (fun x hx => h x (by simp [hx]))

theorem sorted_head?_eq_min? (l : List ℚ) (h : List.Sorted (fun a b : ℚ => a ≤ b) l) :
    l.head? = l.min? := by
  cases l with
  | nil => rfl
  | cons a as =>
    rw [List.sorted_cons] at h
    show some a = some (as.foldl min a)
    rw [foldl_min_of_le a as h.1]

/-- The key fact behind the corrected C1: what the source's band scan
over the ascending-sorted pool returns is exactly the minimum of the
in-band pool values. -/
theorem sorted_find?_inBand_eq_min? (l : List ℚ) :
    (List.insertionSort (fun a b : ℚ => a ≤ b) l).find? inBand = (l.filter inBand).min? := by
  rw [find?_eq_head?_filter]
  rw [sorted_head?_eq_min? _ (List.Sorted.filter _ (List.sorted_insertionSort _ l))]
  exact qmin?_perm ((List.perm_insertionSort _ l).filter inBand)

theorem pyMax_eq_max? (l : List ℚ) (m : ℚ) (h : l.max? = some m) (hne : l ≠ []) :
    pyMax l = m := by
  cases l with
  | nil => exact absurd rfl hne
  | cons a as =>
    have : (a :: as).max? = some (pyMax (a :: as)) := rfl
    rw [this] at h
    exact (Option.some_injective _ h)

/-- When the hardcoded-literal override of `extract_amount_info` finds
nothing, the method reduces to the pool block alone. -/
theorem extract_amount_info_noHardcoded (text : List Char) (info : Info)
    (hnh : noHardcoded text) :
    extract_amount_info text info =
      (if (amountPool text).isEmpty then info
      else
        let sorted := List.insertionSort (fun a b : ℚ => a ≤ b) (amountPool text)
        let infoT := setField info kTotalAmount (formatAmount (pyMax sorted))
        match sorted.find? inBand with
        | some a => setField infoT kTaxAmount (formatAmount a)
        | none => infoT) := by
  unfold extract_amount_info
  rw [show (hardcodedAmounts text) = [] from hnh]
  rfl

/-- C10: for the input text `¥500.00`, whose only currency-marked amount
is the single value 500 lying in the band [100, 1000] and which contains
none of the hardcoded literal amounts, `extract_amount_info` assigns
that same value to both the tax field and the total field: the two
amount fields are not distinct tokens. -/
theorem c10_single_band_value_fills_both_amount_fields :
    amountPool (lit "¥500.00") = [mkRat 500 1]
    ∧ inBand (mkRat 500 1) = true
    ∧ noHardcoded (lit "¥500.00")
    ∧ getField (extract_amount_info (lit "¥500.00") initInvoiceInfo) kTaxAmount = lit "500.00"
    ∧ getField (extract_amount_info (lit "¥500.00") initInvoiceInfo) kTotalAmount = lit "500.00" :=
  ⟨by decide, by decide, by decide, by decide, by decide⟩

/-- C1 counterexample: on the text `¥500.00\n¥200.00` the pool in
original line order is [500, 200] and its first value in the band
[100, 1000] is 500, yet the extractor reports the tax field as 200.00
(it scans the pool after sorting it ascending), refuting the claim that
the first in-band value in original line order is chosen. -/
theorem c1_counterexample_tax_not_first_in_line_order :
    amountPool (lit "¥500.00\n¥200.00") = [mkRat 500 1, mkRat 200 1]
    ∧ (amountPool (lit "¥500.00\n¥200.00")).find? inBand = some (mkRat 500 1)
    ∧ formatAmount (mkRat 500 1) = lit "500.00"
    ∧ noHardcoded (lit "¥500.00\n¥200.00")
    ∧ getField (extract_amount_info (lit "¥500.00\n¥200.00") initInvoiceInfo) kTaxAmount
        = lit "200.00"
    ∧ lit "200.00" ≠ lit "500.00" :=
  ⟨by decide, by decide, by decide, by decide, by decide, by decide⟩

/-- C1 (amended): for every input text containing none of the hardcoded
literal amounts, the extractor sets the tax field to the SMALLEST pool
value within the band [100, 1000] (the pool is sorted ascending before
the band scan, so line order is irrelevant); if no pool value falls in
the band, the tax field is left unchanged. -/
theorem c1_amended_tax_is_smallest_in_band (text : List Char) (info : Info)
    (hnh : noHardcoded text) :
    (((amountPool text).filter inBand = []) →
      getField (extract_amount_info text info) kTaxAmount = getField info kTaxAmount)
    ∧ (∀ m : ℚ, ((amountPool text).filter inBand).min? = some m →
      getField (extract_amount_info text info) kTaxAmount = formatAmount m) := by
  rw [extract_amount_info_noHardcoded text info hnh]
  constructor
  · intro hfil
    by_cases hemp : (amountPool text).isEmpty = true
    · rw [if_pos hemp]
    · rw [if_neg hemp]
      have hfind := sorted_find?_inBand_eq_min? (amountPool text)
      rw [hfil] at hfind
      simp only [List.min?_nil] at hfind
      simp only [hfind]
      exact getField_setField_ne _ _ _ _ (by decide)
  · intro m hm
    have hne : (amountPool text) ≠ [] := by
      intro h
      rw [h] at hm
      simp at hm
    have hne' : ¬ (amountPool text).isEmpty = true := by
      simpa [List.isEmpty_iff] using hne
    rw [if_neg hne']
    have hfind := sorted_find?_inBand_eq_min? (amountPool text)
    rw [hm] at hfind
    simp only [hfind]
    exact getField_setField_self _ _ _

/-- C1 amended, witnessed at the counterexample text: the smallest
in-band pool value of `¥500.00\n¥200.00` is 200 and the tax field is
200.00. -/
theorem c1_amended_witness :
    getField (extract_amount_info (lit "¥500.00\n¥200.00") initInvoiceInfo) kTaxAmount
      = formatAmount (mkRat 200 1) :=
  (c1_amended_tax_is_smallest_in_band (lit "¥500.00\n¥200.00") initInvoiceInfo
    (by decide)).2 (mkRat 200 1) (by decide)

/-- C3 counterexample: on the text `¥5000.00\n¥3992.00` the pool is
[5000, 3992] with maximum 5000, yet the extractor reports the total
field as 3992.00: the hardcoded literal `¥3992.00` overrides the
maximum rule, refuting the claim that the total is always the pool
maximum. -/
theorem c3_counterexample_total_not_max :
    amountPool (lit "¥5000.00\n¥3992.00") = [mkRat 5000 1, mkRat 3992 1]
    ∧ (amountPool (lit "¥5000.00\n¥3992.00")).max? = some (mkRat 5000 1)
    ∧ formatAmount (mkRat 5000 1) = lit "5000.00"
    ∧ getField (extract_amount_info (lit "¥5000.00\n¥3992.00") initInvoiceInfo) kTotalAmount
        = lit "3992.00"
    ∧ lit "3992.00" ≠ lit "5000.00" :=
  ⟨by decide, by decide, by decide, by decide, by decide⟩

/-- C3 (amended): for every input text containing none of the hardcoded
literal amounts, if the currency-marked pool is non-empty then the
extractor sets the total field to the pool maximum, formatted with two
decimals. -/
theorem c3_amended_total_is_max_without_hardcoded (text : List Char) (info : Info)
    (hnh : noHardcoded text) (m : ℚ) (hm : (amountPool text).max? = some m) :
    getField (extract_amount_info text info) kTotalAmount = formatAmount m := by
  rw [extract_amount_info_noHardcoded text info hnh]
  have hne : (amountPool text) ≠ [] := by
    intro h
    rw [h] at hm
    simp at hm
  have hne' : ¬ (amountPool text).isEmpty = true := by
    simpa [List.isEmpty_iff] using hne
  rw [if_neg hne']
  have hperm := List.perm_insertionSort (fun a b : ℚ => a ≤ b) (amountPool text)
  have hmax : (List.insertionSort (fun a b : ℚ => a ≤ b) (amountPool text)).max? = some m := by
    rw [qmax?_perm hperm, hm]
  have hsne : List.insertionSort (fun a b : ℚ => a ≤ b) (amountPool text) ≠ [] := by
    intro h
    rw [h] at hmax
    simp at hmax
  have hpy : pyMax (List.insertionSort (fun a b : ℚ => a ≤ b) (amountPool text)) = m :=
    pyMax_eq_max? _ _ hmax hsne
  simp only [hpy]
  split
  · rw [getField_setField_ne _ _ _ _ (by decide), getField_setField_self]
  · rw [getField_setField_self]

/-- C3 amended, witnessed on a two-amount text free of hardcoded
literals. -/
theorem c3_amended_witness :
    getField (extract_amount_info (lit "¥500.00\n¥200.00") initInvoiceInfo) kTotalAmount
      = formatAmount (mkRat 500 1) :=
  c3_amended_total_is_max_without_hardcoded (lit "¥500.00\n¥200.00") initInvoiceInfo
    (by decide) (mkRat 500 1) (by decide)

/-- C2 counterexample: a batch of three documents in which the second
document's text extraction yields empty text produces only TWO output
entries — the empty-text document is skipped by the `continue` of
`process_invoices`, refuting one-output-per-input. -/
theorem c2_counterexample_empty_text_document_skipped :
    (process_invoices [(lit "a", lit "x"), (lit "b", []), (lit "c", lit "y")]).length = 2
    ∧ (process_invoices [(lit "a", lit "x"), (lit "b", []), (lit "c", lit "y")]).map Prod.fst
        = [lit "a", lit "c"]
    ∧ (2 : Nat) ≠ 3 :=
  ⟨by decide, by decide, by decide⟩

/-- C2 (amended): the batch loop emits exactly one output entry, in
input order, for each document whose extracted text is non-empty; a
document with empty extracted text is skipped and yields no entry. -/
theorem process_invoices_cons (d : List Char × List Char) (rest : List (List Char × List Char)) :
    process_invoices (d :: rest)
      = if d.2 = [] then process_invoices rest
        else (sheetName d.1, parse_invoice_info d.2) :: process_invoices rest := rfl

theorem c2_amended_output_is_nonempty_text_documents (docs : List (List Char × List Char)) :
    process_invoices docs
      = (docs.filter (fun d => !(d.2 == []))).map
          (fun d => (sheetName d.1, parse_invoice_info d.2)) := by
  induction docs with
  | nil => rfl
  | cons d rest ih =>
    rw [process_invoices_cons, ih]
    by_cases h : d.2 = []
    · simp [List.filter_cons, h]
    · simp [List.filter_cons, h]

/-- C7 counterexample: on a text whose first CJK date `2023年1月1日` is
unlabelled and which also contains the labelled date
`开票日期：2024年3月5日`, the extractor returns the unlabelled one —
the bare CJK pattern is tried BEFORE the labelled pattern, refuting the
claimed pattern order. -/
theorem c7_counterexample_bare_pattern_first :
    pySearch matchDateLabelled (lit "2023年1月1日\n开票日期：2024年3月5日")
      = some (lit "2024年3月5日")
    ∧ getField (extract_invoice_date (lit "2023年1月1日\n开票日期：2024年3月5日")
        initInvoiceInfo) kDate = lit "2023年1月1日"
    ∧ lit "2023年1月1日" ≠ lit "2024年3月5日" :=
  ⟨by decide, by decide, by decide⟩

/-- C7 (amended): the date extractor tries the BARE CJK date pattern
first (then labelled, slash, dash, dot), so whenever the bare CJK
pattern matches anywhere in the text its first match is returned
verbatim, even if a labelled CJK date also occurs; and a lone CJK date
is returned exactly as printed. -/
theorem c7_amended_bare_cjk_date_wins :
    (∀ (text : List Char) (info : Info) (d : List Char),
      pySearch matchDateCJK text = some d →
        getField (extract_invoice_date text info) kDate = d)
    ∧ getField (extract_invoice_date (lit "2024年3月5日") initInvoiceInfo) kDate
        = lit "2024年3月5日" := by
  constructor
  · intro text info d h
    unfold extract_invoice_date
    simp only [h]
    exact getField_setField_self _ _ _
  · decide

/-- C7 amended, witnessed at the counterexample text. -/
theorem c7_amended_witness :
    getField (extract_invoice_date (lit "2023年1月1日\n开票日期：2024年3月5日")
      initInvoiceInfo) kDate = lit "2023年1月1日" :=
  c7_amended_bare_cjk_date_wins.1 (lit "2023年1月1日\n开票日期：2024年3月5日")
    initInvoiceInfo (lit "2023年1月1日") (by decide)

/-- C8: the identifier extractor tries the labelled patterns before the
bare digit-run fallback and returns the first match whose digit count
lies in [8, 20], stopping at the first success: whenever the first
(`发票号码`-labelled) pattern has a match passing the length filter,
that match is the result; on `发票号码：12345678901` the identifier is
12345678901; and on a bare ten-digit run it is that run. -/
theorem c8_identifier_pattern_order_and_examples :
    (∀ (text : List Char) (info : Info) (m : List Char),
      firstValidNum (pyFindall (matchLabelNum (lit "发票号码")) text) = some m →
        getField (extract_invoice_number text info) kNumber = m)
    ∧ getField (extract_invoice_number (lit "发票号码：12345678901") initInvoiceInfo) kNumber
        = lit "12345678901"
    ∧ getField (extract_invoice_number (lit "1234567890") initInvoiceInfo) kNumber
        = lit "1234567890" := by
  refine ⟨?_, by decide, by decide⟩
  intro text info m h
  unfold extract_invoice_number
  simp only [h, Option.or]
  exact getField_setField_self _ _ _

/-- C8, witnessed at the labelled example text. -/
theorem c8_witness :
    getField (extract_invoice_number (lit "发票号码：12345678901") initInvoiceInfo) kNumber
      = lit "12345678901" :=
  c8_identifier_pattern_order_and_examples.1 (lit "发票号码：12345678901") initInvoiceInfo
    (lit "12345678901") (by decide)

/-- Whether the text contains two adjacent CJK characters — exactly the
texts on which the fallback pattern `[一-龥]{2,3}` has a match. -/
def hasCJKPair : List Char → Bool
  | a :: b :: rest => (isCJK a && isCJK b) || hasCJKPair (b :: rest)
  | _ => false

theorem matchCJKPair_none_of_not_pair (a b : Char) (rest : List Char)
    (h : ¬ (isCJK a && isCJK b) = true) :
    matchCJKPair (a :: b :: rest) = none := by
  cases rest with
  | nil => simp only [matchCJKPair, if_neg h]
  | cons c r => simp only [matchCJKPair, if_neg h]

theorem scanF_matchCJKPair_ne_nil (fuel : Nat) (l : List Char)
    (hf : l.length ≤ fuel) (hp : hasCJKPair l = true) :
    scanF matchCJKPair fuel l ≠ [] := by
  induction fuel generalizing l with
  | zero =>
    cases l with
    | nil => simp [hasCJKPair] at hp
    | cons a r => simp at hf
  | succ n ih =>
    cases l with
    | nil => simp [hasCJKPair] at hp
    | cons a r =>
      cases r with
      | nil => simp [hasCJKPair] at hp
      | cons b rest =>
        by_cases hab : (isCJK a && isCJK b) = true
        · have : ∃ g L, matchCJKPair (a :: b :: rest) = some (g, L) := by
            cases rest with
            | nil => exact ⟨[a, b], 2, by simp [matchCJKPair, hab]⟩
            | cons c r2 =>
              by_cases hc : isCJK c = true
              · exact ⟨[a, b, c], 3, by simp [matchCJKPair, hab, hc]⟩
              · exact ⟨[a, b], 2, by simp [matchCJKPair, hab, hc]⟩
          obtain ⟨g, L, hm⟩ := this
          simp [scanF, hm]
        · have hp' : hasCJKPair (b :: rest) = true := by
            have := hp
            simp only [hasCJKPair, Bool.or_eq_true] at this
            rcases this with h | h
            · exact absurd h hab
            · exact h
          have hm := matchCJKPair_none_of_not_pair a b rest hab
          have hlen : (b :: rest).length ≤ n := by
            simpa using Nat.lt_succ_iff.mp (Nat.lt_of_lt_of_le (by simp) hf)
          simp only [scanF, hm]
          exact ih (b :: rest) hlen hp'

theorem scanF_matchCJKPair_lenOk (fuel : Nat) (l : List Char) (m : List Char)
    (hm : m ∈ scanF matchCJKPair fuel l) : nameLenOk m = true := by
  induction fuel generalizing l with
  | zero => simp [scanF] at hm
  | succ n ih =>
    cases l with
    | nil => simp [scanF] at hm
    | cons a r =>
      cases hmt : matchCJKPair (a :: r) with
      | none =>
        simp only [scanF, hmt] at hm
        exact ih r hm
      | some gl =>
        obtain ⟨g, L⟩ := gl
        simp only [scanF, hmt, List.mem_cons] at hm
        rcases hm with hm | hm
        · subst hm
          cases r with
          | nil =>
            simp only [matchCJKPair] at hmt
            by_cases hab : (isCJK a && isCJK a) = true
            · simp at hmt
            · simp at hmt
          | cons b rest =>
            revert hmt
            cases rest with
            | nil =>
              simp only [matchCJKPair]
              by_cases hab : (isCJK a && isCJK b) = true
              · rw [if_pos hab]
                intro hmt
                cases hmt
                rfl
              · rw [if_neg hab]
                intro hmt
                cases hmt
            | cons c r2 =>
              simp only [matchCJKPair]
              by_cases hab : (isCJK a && isCJK b) = true
              · rw [if_pos hab]
                by_cases hc : isCJK c = true
                · rw [if_pos hc]
                  intro hmt
                  cases hmt
                  rfl
                · rw [if_neg hc]
                  intro hmt
                  cases hmt
                  rfl
              · rw [if_neg hab]
                intro hmt
                cases hmt
        · exact ih _ hm

theorem nameLenOk_ne_nil (m : List Char) (h : nameLenOk m = true) : m ≠ [] := by
  intro he
  subst he
  simp [nameLenOk, between] at h

/-- If the text contains two adjacent CJK characters, the issuer
fallback of `extract_other_fields` produces a non-empty name. -/
theorem fallbackName_of_pair (text : List Char) (h : hasCJKPair text = true) :
    ∃ n, fallbackName text = some n ∧ n ≠ [] := by
  unfold fallbackName
  cases h1 : (pyFindall (litMatch (lit "张英豪")) text).find? nameLenOk with
  | some n => exact ⟨n, rfl, nameLenOk_ne_nil n (List.find?_some h1)⟩
  | none =>
    cases h2 : (pyFindall matchZhangRun text).find? nameLenOk with
    | some n => exact ⟨n, rfl, nameLenOk_ne_nil n (List.find?_some h2)⟩
    | none =>
      cases h3 : pyFindall matchCJKPair text with
      | nil => exact absurd h3 (scanF_matchCJKPair_ne_nil text.length text (le_refl _) h)
      | cons m ms =>
        have hok : nameLenOk m = true :=
          scanF_matchCJKPair_lenOk text.length text m (by rw [pyFindall] at h3; rw [h3]; simp)
        refine ⟨m, ?_, nameLenOk_ne_nil m hok⟩
        simp only [Option.or, h3, List.find?, hok]

theorem getField_itemStep_issuer (text : List Char) (info : Info) :
    getField (itemStep text info) kIssuer = getField info kIssuer := by
  unfold itemStep
  cases h : (splitNl text).find? itemLinePred with
  | none => rfl
  | some l => exact getField_setField_ne _ _ _ _ (by decide)

theorem getField_specStep_issuer (text : List Char) (info : Info) :
    getField (specStep text info) kIssuer = getField info kIssuer := by
  unfold specStep
  cases h : specKws.find? (fun k => containsSub k text) with
  | none => rfl
  | some k => exact getField_setField_ne _ _ _ _ (by decide)

/-- C6 counterexample: on the one-line text `价税总计：¥500.00`, no line
is a standalone 2-4 character CJK run, yet the issuer field is set to
`价税总` by the fallback patterns — fallback name guessing IS performed,
refuting the claim that the field is left empty. -/
theorem c6_counterexample_fallback_guesses_name :
    (∀ l ∈ splitNl (lit "价税总计：¥500.00"), standaloneName (strip l) = false)
    ∧ getField (extract_other_fields (lit "价税总计：¥500.00") initInvoiceInfo) kIssuer
        = lit "价税总"
    ∧ lit "价税总" ≠ ([] : List Char) :=
  ⟨by decide, by decide, by decide⟩

/-- C6 (amended): when no line is a standalone 2-4 character CJK run
passing the exclusion check, the source still runs its fallback name
guessing (the literal `张英豪`, then `张\w+`, then any 2-3 character CJK
run); in particular the issuer field ends up NON-empty whenever the text
contains two adjacent CJK characters anywhere. -/
theorem c6_amended_fallback_name_guessing_runs (text : List Char) (info : Info)
    (h0 : getField info kIssuer = [])
    (hstand : ∀ l ∈ splitNl text, standaloneName (strip l) = false)
    (hpair : hasCJKPair text = true) :
    getField (extract_other_fields text info) kIssuer ≠ [] := by
  obtain ⟨n, hfb, hne⟩ := fallbackName_of_pair text hpair
  have hi1 : getField (itemStep text info) kIssuer = [] := by
    rw [getField_itemStep_issuer]
    exact h0
  have hsn : (splitNl text).find? (fun l => standaloneName (strip l)) = none := by
    apply List.find?_eq_none.2
    intro x hx
    simp [hstand x hx]
  have h2 : issuerScanStep text (itemStep text info) = itemStep text info := by
    unfold issuerScanStep
    rw [hsn]
  have h3 : issuerFallbackStep text (itemStep text info)
      = setField (itemStep text info) kIssuer n := by
    unfold issuerFallbackStep
    rw [if_pos hi1, hfb]
  unfold extract_other_fields
  rw [h2, h3, getField_specStep_issuer, getField_setField_self]
  exact hne

/-- C6 amended, witnessed at the counterexample text. -/
theorem c6_amended_witness :
    getField (extract_other_fields (lit "价税总计：¥500.00") initInvoiceInfo) kIssuer ≠ [] :=
  c6_amended_fallback_name_guessing_runs (lit "价税总计：¥500.00") initInvoiceInfo
    (by decide) (by decide) (by decide)

/-- The eleven field names of the record, in source initialisation
order. -/
def fieldKeys : List (List Char) :=
  [kNumber, kDate, kBuyerName, kBuyerCode, kSellerName, kSellerCode,
   kItemName, kSpecModel, kTaxAmount, kTotalAmount, kIssuer]

theorem keys_setField (info : Info) (k v : List Char)
    (hi : info.map Prod.fst = fieldKeys) (hk : k ∈ fieldKeys) :
    (setField info k v).map Prod.fst = fieldKeys := by
  rw [setField_map_fst info k v (by rw [hi]; exact hk)]
  exact hi

theorem keys_extract_invoice_number (text : List Char) (info : Info)
    (hi : info.map Prod.fst = fieldKeys) :
    (extract_invoice_number text info).map Prod.fst = fieldKeys := by
  unfold extract_invoice_number
  split
  · exact keys_setField _ _ _ hi (by decide)
  · exact hi

theorem keys_extract_invoice_date (text : List Char) (info : Info)
    (hi : info.map Prod.fst = fieldKeys) :
    (extract_invoice_date text info).map Prod.fst = fieldKeys := by
  unfold extract_invoice_date
  repeat' split
  all_goals first
    | exact hi
    | exact keys_setField _ _ _ hi (by decide)

theorem keys_extract_amount_info (text : List Char) (info : Info)
    (hi : info.map Prod.fst = fieldKeys) :
    (extract_amount_info text info).map Prod.fst = fieldKeys := by
  simp only [extract_amount_info]
  repeat' split
  all_goals
    repeat' first
      | exact hi
      | apply keys_setField
      | decide

theorem keys_roleStepOne (kws : List (List Char)) (key : List Char)
    (lines : List (List Char)) (st : List (List Char) × Info) (i : Nat) (l : List Char)
    (hk : key ∈ fieldKeys) (hi : st.2.map Prod.fst = fieldKeys) :
    (roleStepOne kws key lines st i l).2.map Prod.fst = fieldKeys := by
  unfold roleStepOne
  repeat' split
  all_goals first
    | exact hi
    | exact keys_setField _ _ _ hi hk

theorem keys_rolePass (lines : List (List Char)) (suffix : List (List Char)) (i : Nat)
    (st : List (List Char) × Info) (hi : st.2.map Prod.fst = fieldKeys) :
    (rolePass lines suffix i st).2.map Prod.fst = fieldKeys := by
  induction suffix generalizing i st with
  | nil => exact hi
  | cons l ls ih =>
    apply ih
    unfold roleStep
    apply keys_roleStepOne _ _ _ _ _ _ (by decide)
    exact keys_roleStepOne _ _ _ _ _ _ (by decide) hi

theorem keys_companyAssignTail (text : List Char) (st : List (List Char) × Info)
    (hi : st.2.map Prod.fst = fieldKeys) :
    (companyAssignTail text st).map Prod.fst = fieldKeys := by
  simp only [companyAssignTail, codeAssignStep, nameFallbackStep]
  repeat' split
  all_goals
    repeat' first
      | exact hi
      | apply keys_setField
      | decide

theorem keys_extract_company_info (text : List Char) (info : Info)
    (hi : info.map Prod.fst = fieldKeys) :
    (extract_company_info text info).map Prod.fst = fieldKeys := by
  unfold extract_company_info
  exact keys_companyAssignTail _ _ (keys_rolePass _ _ _ _ hi)

theorem keys_itemStep (text : List Char) (info : Info)
    (hi : info.map Prod.fst = fieldKeys) :
    (itemStep text info).map Prod.fst = fieldKeys := by
  unfold itemStep
  split
  · exact keys_setField _ _ _ hi (by decide)
  · exact hi

theorem keys_issuerScanStep (text : List Char) (info : Info)
    (hi : info.map Prod.fst = fieldKeys) :
    (issuerScanStep text info).map Prod.fst = fieldKeys := by
  unfold issuerScanStep
  split
  · exact keys_setField _ _ _ hi (by decide)
  · exact hi

theorem keys_issuerFallbackStep (text : List Char) (info : Info)
    (hi : info.map Prod.fst = fieldKeys) :
    (issuerFallbackStep text info).map Prod.fst = fieldKeys := by
  unfold issuerFallbackStep
  repeat' split
  all_goals first
    | exact hi
    | exact keys_setField _ _ _ hi (by decide)

theorem keys_specStep (text : List Char) (info : Info)
    (hi : info.map Prod.fst = fieldKeys) :
    (specStep text info).map Prod.fst = fieldKeys := by
  unfold specStep
  split
  · exact keys_setField _ _ _ hi (by decide)
  · exact hi

theorem keys_extract_other_fields (text : List Char) (info : Info)
    (hi : info.map Prod.fst = fieldKeys) :
    (extract_other_fields text info).map Prod.fst = fieldKeys := by
  unfold extract_other_fields
  exact keys_specStep _ _ (keys_issuerFallbackStep _ _ (keys_issuerScanStep _ _
    (keys_itemStep _ _ hi)))

theorem keys_foldl {β : Type} (f : Info → β → Info)
    (hstep : ∀ info b, info.map Prod.fst = fieldKeys → (f info b).map Prod.fst = fieldKeys)
    (l : List β) (info : Info) (hi : info.map Prod.fst = fieldKeys) :
    (l.foldl f info).map Prod.fst = fieldKeys := by
  induction l generalizing info with
  | nil => exact hi
  | cons b bs ih => exact ih _ (hstep _ _ hi)

theorem keys_shanghaiWindow (lines : List (List Char)) (i : Nat) (info : Info)
    (hi : info.map Prod.fst = fieldKeys) :
    (shanghaiWindow lines i info).map Prod.fst = fieldKeys := by
  unfold shanghaiWindow
  apply keys_foldl _ _ _ _ hi
  intro info' j hi'
  repeat' split
  all_goals first
    | exact hi'
    | exact keys_setField _ _ _ hi' (by decide)

theorem keys_shanghaiPass (lines : List (List Char)) (suffix : List (List Char)) (i : Nat)
    (info : Info) (hi : info.map Prod.fst = fieldKeys) :
    (shanghaiPass lines suffix i info).map Prod.fst = fieldKeys := by
  induction suffix generalizing i info with
  | nil => exact hi
  | cons l ls ih =>
    apply ih
    split
    · exact keys_shanghaiWindow _ _ _ hi
    · exact hi

theorem keys_parse_generic_invoice (text : List Char) (info : Info)
    (hi : info.map Prod.fst = fieldKeys) :
    (parse_generic_invoice text info).map Prod.fst = fieldKeys := by
  unfold parse_generic_invoice
  exact keys_extract_other_fields _ _ (keys_extract_amount_info _ _
    (keys_extract_company_info _ _ (keys_extract_invoice_date _ _
      (keys_extract_invoice_number _ _ hi))))

/-- C9: for every input text, the public parse entry point returns a
field mapping whose keys are exactly the eleven record fields, in
source order (all values possibly empty); it is a total function of the
text, so no exception escapes its public surface. -/
theorem c9_parse_always_returns_all_eleven_fields (text : List Char) :
    (parse_invoice_info text).map Prod.fst = fieldKeys
    ∧ (parse_invoice_info text).length = 11 := by
  have hinit : initInvoiceInfo.map Prod.fst = fieldKeys := rfl
  have hk : (parse_invoice_info text).map Prod.fst = fieldKeys := by
    unfold parse_invoice_info
    split
    · exact keys_parse_generic_invoice _ _ hinit
    · unfold parse_shanghai_invoice
      exact keys_parse_generic_invoice _ _ (keys_shanghaiPass _ _ _ _ hinit)
    · exact keys_parse_generic_invoice _ _ hinit
    · exact keys_parse_generic_invoice _ _ hinit
  refine ⟨hk, ?_⟩
  have := congrArg List.length hk
  simpa using this

theorem foldl_addIfNew_nodup (minLen : Nat) (ms : List (List Char))
    (acc : List (List Char)) (h : acc.Nodup) :
    (ms.foldl (addIfNew minLen) acc).Nodup := by
  induction ms generalizing acc with
  | nil => exact h
  | cons m rest ih =>
    apply ih
    unfold addIfNew
    split
    · rename_i hc
      rw [List.nodup_append]
      exact ⟨h, List.nodup_singleton m, by
        intro x hx hm
        rw [List.mem_singleton] at hm
        subst hm
        exact hc.2 hx⟩
    · exact h

theorem foldl_addIfNew_len (minLen : Nat) (ms : List (List Char))
    (acc : List (List Char)) (h : ∀ c ∈ acc, minLen < c.length) :
    ∀ c ∈ ms.foldl (addIfNew minLen) acc, minLen < c.length := by
  induction ms generalizing acc with
  | nil => exact h
  | cons m rest ih =>
    apply ih
    intro c hc
    revert hc
    unfold addIfNew
    split
    · rename_i hcond
      intro hc
      rw [List.mem_append, List.mem_singleton] at hc
      rcases hc with hc | hc
      · exact h c hc
      · subst hc
        exact hcond.1
    · exact h c

theorem companiesOf_nodup (text : List Char) : (companiesOf text).Nodup :=
  foldl_addIfNew_nodup 5 _ [] List.nodup_nil

theorem companiesOf_len (text : List Char) : ∀ c ∈ companiesOf text, 5 < c.length :=
  foldl_addIfNew_len 5 _ [] (by intro c hc; simp at hc)

theorem companiesOf_ne_nil (text : List Char) : ∀ c ∈ companiesOf text, c ≠ [] := by
  intro c hc he
  have := companiesOf_len text c hc
  rw [he] at this
  simp at this

theorem windowFind_mem (lines : List (List Char)) (i : Nat) (cs : List (List Char))
    (c : List Char) (h : windowFind lines i cs = some c) : c ∈ cs := by
  unfold windowFind at h
  obtain ⟨j, _, hj⟩ := List.exists_of_findSome?_eq_some h
  exact List.mem_of_find?_eq_some hj

/-- The state invariant of the role loop: the pool has no duplicates
and no empty entry, an assigned role value is no longer in the pool,
and two assigned role values are distinct. -/
def RoleInv (st : List (List Char) × Info) : Prop :=
  st.1.Nodup
  ∧ (∀ c ∈ st.1, c ≠ [])
  ∧ (getField st.2 kBuyerName = [] ∨ getField st.2 kBuyerName ∉ st.1)
  ∧ (getField st.2 kSellerName = [] ∨ getField st.2 kSellerName ∉ st.1)
  ∧ (getField st.2 kBuyerName = [] ∨ getField st.2 kSellerName = []
      ∨ getField st.2 kBuyerName ≠ getField st.2 kSellerName)

theorem roleInv_roleStepOne_buyer (lines : List (List Char))
    (st : List (List Char) × Info) (i : Nat) (l : List Char) (hinv : RoleInv st) :
    RoleInv (roleStepOne buyerKws kBuyerName lines st i l) := by
  obtain ⟨hnd, hne, hb, hs, hd⟩ := hinv
  unfold roleStepOne
  split
  · rename_i hcond
    cases hw : windowFind lines i st.1 with
    | none => exact ⟨hnd, hne, hb, hs, hd⟩
    | some c =>
      have hcm : c ∈ st.1 := windowFind_mem _ _ _ _ hw
      have hcne : c ≠ [] := hne c hcm
      refine ⟨hnd.erase c, fun x hx => hne x (List.erase_subset c st.1 hx), ?_, ?_, ?_⟩
      · right
        rw [getField_setField_self]
        exact hnd.not_mem_erase
      · rcases hs with hs | hs
        · left
          rw [getField_setField_ne _ _ _ _ (by decide)]
          exact hs
        · right
          rw [getField_setField_ne _ _ _ _ (by decide)]
          exact fun hx => hs (List.erase_subset c st.1 hx)
      · rcases hs with hs | hs
        · right; left
          rw [getField_setField_ne _ _ _ _ (by decide)]
          exact hs
        · right; right
          rw [getField_setField_self, getField_setField_ne _ _ _ _ (by decide)]
          intro he
          exact hs (he ▸ hcm)
  · exact ⟨hnd, hne, hb, hs, hd⟩

theorem roleInv_roleStepOne_seller (lines : List (List Char))
    (st : List (List Char) × Info) (i : Nat) (l : List Char) (hinv : RoleInv st) :
    RoleInv (roleStepOne sellerKws kSellerName lines st i l) := by
  obtain ⟨hnd, hne, hb, hs, hd⟩ := hinv
  unfold roleStepOne
  split
  · rename_i hcond
    cases hw : windowFind lines i st.1 with
    | none => exact ⟨hnd, hne, hb, hs, hd⟩
    | some c =>
      have hcm : c ∈ st.1 := windowFind_mem _ _ _ _ hw
      have hcne : c ≠ [] := hne c hcm
      refine ⟨hnd.erase c, fun x hx => hne x (List.erase_subset c st.1 hx), ?_, ?_, ?_⟩
      · rcases hb with hb | hb
        · left
          rw [getField_setField_ne _ _ _ _ (by decide)]
          exact hb
        · right
          rw [getField_setField_ne _ _ _ _ (by decide)]
          exact fun hx => hb (List.erase_subset c st.1 hx)
      · right
        rw [getField_setField_self]
        exact hnd.not_mem_erase
      · rcases hb with hb | hb
        · left
          rw [getField_setField_ne _ _ _ _ (by decide)]
          exact hb
        · right; right
          rw [getField_setField_self, getField_setField_ne _ _ _ _ (by decide)]
          intro he
          exact hb (he.symm ▸ hcm)
  · exact ⟨hnd, hne, hb, hs, hd⟩

theorem roleInv_rolePass (lines : List (List Char)) (suffix : List (List Char)) (i : Nat)
    (st : List (List Char) × Info) (hinv : RoleInv st) :
    RoleInv (rolePass lines suffix i st) := by
  induction suffix generalizing i st with
  | nil => exact hinv
  | cons l ls ih =>
    apply ih
    unfold roleStep
    exact roleInv_roleStepOne_seller _ _ _ _ (roleInv_roleStepOne_buyer _ _ _ _ hinv)

theorem headD_mem (l : List (List Char)) (h : l ≠ []) : l.headD [] ∈ l := by
  cases l with
  | nil => exact absurd rfl h
  | cons a r => simp

theorem getD1_mem (l : List (List Char)) (h : 1 < l.length) : l.getD 1 [] ∈ l := by
  cases l with
  | nil => simp at h
  | cons a r =>
    cases r with
    | nil => simp at h
    | cons b r2 => simp [List.getD]

theorem headD_ne_getD1 (l : List (List Char)) (hnd : l.Nodup) (h : 1 < l.length) :
    l.headD [] ≠ l.getD 1 [] := by
  cases l with
  | nil => simp at h
  | cons a r =>
    cases r with
    | nil => simp at h
    | cons b r2 =>
      rw [List.nodup_cons] at hnd
      intro he
      have hb : (a :: b :: r2).headD [] = a := rfl
      have hg : (a :: b :: r2).getD 1 [] = b := rfl
      rw [hb, hg] at he
      subst he
      exact hnd.1 (List.mem_cons_self a r2)

theorem mem_of_mem_filterRemaining (st : List (List Char) × Info) (c : List Char)
    (hc : c ∈ st.1.filter
      (fun c => !(c == getField st.2 kBuyerName || c == getField st.2 kSellerName))) :
    c ∈ st.1 ∧ c ≠ getField st.2 kBuyerName ∧ c ≠ getField st.2 kSellerName := by
  rw [List.mem_filter] at hc
  refine ⟨hc.1, ?_, ?_⟩
  · intro he
    have := hc.2
    rw [he] at this
    simp at this
  · intro he
    have := hc.2
    rw [he] at this
    simp at this

/-- After the positional name fallback, two non-empty role names are
always distinct. -/
theorem nameFallbackStep_distinct (st : List (List Char) × Info) (hinv : RoleInv st) :
    getField (nameFallbackStep st) kBuyerName = []
    ∨ getField (nameFallbackStep st) kSellerName = []
    ∨ getField (nameFallbackStep st) kBuyerName ≠ getField (nameFallbackStep st) kSellerName := by
  obtain ⟨hnd, hne, hb, hs, hd⟩ := hinv
  have hrm := mem_of_mem_filterRemaining st
  simp only [nameFallbackStep]
  set rem := st.1.filter
    (fun c => !(c == getField st.2 kBuyerName || c == getField st.2 kSellerName)) with hremdef
  have hndr : rem.Nodup := hnd.filter _
  by_cases hempty : rem.isEmpty = true
  · rw [if_pos hempty]
    exact hd
  · rw [if_neg hempty]
    have hrne : rem ≠ [] := by
      intro h
      rw [h] at hempty
      simp at hempty
    by_cases hb0 : getField st.2 kBuyerName = []
    · rw [if_pos hb0]
      have hsv : getField (setField st.2 kBuyerName (rem.headD [])) kSellerName
          = getField st.2 kSellerName := getField_setField_ne _ _ _ _ (by decide)
      by_cases hinner : getField (setField st.2 kBuyerName (rem.headD [])) kSellerName = []
          ∧ 1 < rem.length
      · rw [if_pos hinner]
        right; right
        rw [getField_setField_ne _ _ _ _ (by decide), getField_setField_self,
          getField_setField_self]
        exact headD_ne_getD1 rem hndr hinner.2
      · rw [if_neg hinner]
        by_cases hs0 : getField st.2 kSellerName = []
        · right; left
          rw [hsv]
          exact hs0
        · right; right
          rw [getField_setField_self, hsv]
          have := (hrm (rem.headD []) (headD_mem rem hrne)).2.2
          exact this
    · rw [if_neg hb0]
      by_cases hinner : getField st.2 kSellerName = [] ∧ 1 < rem.length
      · rw [if_pos hinner]
        right; right
        rw [getField_setField_ne _ _ _ _ (by decide), getField_setField_self]
        have := (hrm (rem.getD 1 []) (getD1_mem rem hinner.2)).2.1
        exact fun he => this he.symm
      · rw [if_neg hinner]
        exact hd

theorem getField_codeAssignStep_buyerName (text : List Char) (info : Info) :
    getField (codeAssignStep text info) kBuyerName = getField info kBuyerName := by
  simp only [codeAssignStep]
  repeat' split
  all_goals repeat' first
    | rfl
    | rw [getField_setField_ne _ _ _ _ (by decide)]

theorem getField_codeAssignStep_sellerName (text : List Char) (info : Info) :
    getField (codeAssignStep text info) kSellerName = getField info kSellerName := by
  simp only [codeAssignStep]
  repeat' split
  all_goals repeat' first
    | rfl
    | rw [getField_setField_ne _ _ _ _ (by decide)]

/-- C5 counterexample: on `销售方：\n阿里巴巴网络公司\n购买方` a
seller-keyword occurs on an EARLIER line than the only buyer-keyword;
the source's single interleaved pass lets the seller block claim the
only candidate first (buyer ends empty), whereas a buyer pass completing
over all lines before the seller pass (the claimed behaviour, modelled
by `extract_company_info_twoPass`) would give it to the buyer — refuting
the claimed two-ordered-passes structure. -/
theorem c5_counterexample_earlier_seller_line_claims_first :
    getField (extract_company_info (lit "销售方：\n阿里巴巴网络公司\n购买方")
      initInvoiceInfo) kBuyerName = []
    ∧ getField (extract_company_info (lit "销售方：\n阿里巴巴网络公司\n购买方")
        initInvoiceInfo) kSellerName = lit "阿里巴巴网络公司"
    ∧ getField (extract_company_info_twoPass (lit "销售方：\n阿里巴巴网络公司\n购买方")
        initInvoiceInfo) kBuyerName = lit "阿里巴巴网络公司"
    ∧ getField (extract_company_info_twoPass (lit "销售方：\n阿里巴巴网络公司\n购买方")
        initInvoiceInfo) kSellerName = [] :=
  ⟨by decide, by decide, by decide, by decide⟩

/-- C5 (amended): role assignment is a SINGLE pass over the lines with
the buyer-keyword block run before the seller-keyword block on each
line, so a seller-keyword on an earlier line claims candidates before a
buyer-keyword on a later line; assignment removes the claimed name from
the shared pool, so a name assigned to one role is never assigned to the
other: whenever both role fields of the result are non-empty they are
distinct. -/
theorem c5_amended_assigned_names_never_shared (text : List Char) (info : Info)
    (hb : getField info kBuyerName = []) (hs : getField info kSellerName = [])
    (hb' : getField (extract_company_info text info) kBuyerName ≠ [])
    (hs' : getField (extract_company_info text info) kSellerName ≠ []) :
    getField (extract_company_info text info) kBuyerName
      ≠ getField (extract_company_info text info) kSellerName := by
  have hinv : RoleInv (rolePass (splitNl text) (splitNl text) 0 (companiesOf text, info)) :=
    roleInv_rolePass _ _ _ _
      ⟨companiesOf_nodup text, companiesOf_ne_nil text, Or.inl hb, Or.inl hs, Or.inl hb⟩
  have hd := nameFallbackStep_distinct _ hinv
  have he : extract_company_info text info
      = codeAssignStep text (nameFallbackStep
          (rolePass (splitNl text) (splitNl text) 0 (companiesOf text, info))) := rfl
  rw [he] at hb' hs' ⊢
  rw [getField_codeAssignStep_buyerName, getField_codeAssignStep_sellerName] at *
  rcases hd with h | h | h
  · exact absurd h hb'
  · exact absurd h hs'
  · exact h

/-- C5 amended, witnessed on a text assigning both roles by keyword
proximity. -/
theorem c5_amended_witness :
    getField (extract_company_info (lit "购买方：\n阿里巴巴网络公司\n销售方：\n腾讯计算机企业")
        initInvoiceInfo) kBuyerName
      ≠ getField (extract_company_info (lit "购买方：\n阿里巴巴网络公司\n销售方：\n腾讯计算机企业")
          initInvoiceInfo) kSellerName :=
  c5_amended_assigned_names_never_shared
    (lit "购买方：\n阿里巴巴网络公司\n销售方：\n腾讯计算机企业") initInvoiceInfo
    (by decide) (by decide) (by decide) (by decide)

theorem roleStepOne_no_kw (kws : List (List Char)) (key : List Char)
    (lines : List (List Char)) (st : List (List Char) × Info) (i : Nat) (l : List Char)
    (h : lineHasKw kws l = false) : roleStepOne kws key lines st i l = st := by
  unfold roleStepOne
  rw [if_neg]
  intro hc
  rw [h] at hc
  exact absurd hc.1 (by simp)

theorem roleStepOne_stuck (kws : List (List Char)) (key : List Char)
    (lines : List (List Char)) (st : List (List Char) × Info) (i : Nat) (l : List Char)
    (h : getField st.2 key ≠ []) : roleStepOne kws key lines st i l = st := by
  unfold roleStepOne
  rw [if_neg]
  intro hc
  exact h hc.2

theorem rolePass_cons (lines : List (List Char)) (l : List Char) (post : List (List Char))
    (i : Nat) (st : List (List Char) × Info) :
    rolePass lines (l :: post) i st = rolePass lines post (i + 1) (roleStep lines st i l) := rfl

theorem rolePass_append (lines pre post : List (List Char)) (i : Nat)
    (st : List (List Char) × Info)
    (h : ∀ l ∈ pre, lineHasKw buyerKws l = false ∧ lineHasKw sellerKws l = false) :
    rolePass lines (pre ++ post) i st = rolePass lines post (i + pre.length) st := by
  induction pre generalizing i st with
  | nil => simp
  | cons l ls ih =>
    have hl := h l (List.mem_cons_self l ls)
    have hstep : roleStep lines st i l = st := by
      unfold roleStep
      rw [roleStepOne_no_kw _ _ _ _ _ _ hl.1, roleStepOne_no_kw _ _ _ _ _ _ hl.2]
    rw [List.cons_append, rolePass_cons, hstep,
      ih (i + 1) st (fun x hx => h x (List.mem_cons_of_mem l hx))]
    congr 1
    simp [List.length_cons]
    omega

theorem rolePass_stuck (lines post : List (List Char)) (i : Nat)
    (st : List (List Char) × Info) (hbne : getField st.2 kBuyerName ≠ [])
    (hns : ∀ l ∈ post, lineHasKw sellerKws l = false) :
    rolePass lines post i st = st := by
  induction post generalizing i with
  | nil => rfl
  | cons l ls ih =>
    have hstep : roleStep lines st i l = st := by
      unfold roleStep
      rw [roleStepOne_stuck _ _ _ _ _ _ hbne,
        roleStepOne_no_kw _ _ _ _ _ _ (hns l (List.mem_cons_self l ls))]
    rw [rolePass_cons, hstep]
    exact ih (i + 1) (fun x hx => hns x (List.mem_cons_of_mem l hx))

theorem roleStep_pivot (lines : List (List Char)) (cs : List (List Char)) (info : Info)
    (i : Nat) (l : List Char) (c : List Char)
    (hkw : lineHasKw buyerKws l = true) (hb : getField info kBuyerName = [])
    (hw : windowFind lines i cs = some c) (hns : lineHasKw sellerKws l = false) :
    roleStep lines (cs, info) i l = (cs.erase c, setField info kBuyerName c) := by
  unfold roleStep
  have hbuyer : roleStepOne buyerKws kBuyerName lines (cs, info) i l
      = (cs.erase c, setField info kBuyerName c) := by
    unfold roleStepOne
    rw [if_pos ⟨hkw, hb⟩]
    rw [show windowFind lines i (cs, info).1 = some c from hw]
  rw [hbuyer]
  exact roleStepOne_no_kw _ _ _ _ _ _ hns

/-- C4 counterexample: on
`购买方：\n阿里巴巴网络公司\n腾讯计算机企业` — exactly two candidate
names, a buyer-keyword line whose window contains the first name, no
seller-keyword line — the buyer gets the first name but the seller is
left EMPTY, not assigned the second name: the positional fallback only
fills the seller from the second remaining candidate, and after the
buyer claim only one candidate remains. -/
theorem c4_counterexample_seller_left_empty :
    companiesOf (lit "购买方：\n阿里巴巴网络公司\n腾讯计算机企业")
      = [lit "阿里巴巴网络公司", lit "腾讯计算机企业"]
    ∧ lineHasKw buyerKws (lit "购买方：") = true
    ∧ (∀ l ∈ splitNl (lit "购买方：\n阿里巴巴网络公司\n腾讯计算机企业"),
        lineHasKw sellerKws l = false)
    ∧ getField (extract_company_info (lit "购买方：\n阿里巴巴网络公司\n腾讯计算机企业")
        initInvoiceInfo) kBuyerName = lit "阿里巴巴网络公司"
    ∧ getField (extract_company_info (lit "购买方：\n阿里巴巴网络公司\n腾讯计算机企业")
        initInvoiceInfo) kSellerName = []
    ∧ ([] : List Char) ≠ lit "腾讯计算机企业" :=
  ⟨by decide, by decide, by decide, by decide, by decide, by decide⟩

/-- C4 (amended): with exactly two candidates, a first buyer-keyword
line (no role keyword before it) whose window search yields the first
candidate, and no seller-keyword line anywhere, the extractor assigns
buyer_name = the first candidate and leaves seller_name EMPTY: the
claimed name is removed from the pool, the remaining pool is the single
second candidate, and the positional fallback fills the seller only
from the SECOND remaining candidate, which does not exist. -/
theorem c4_amended_buyer_first_seller_empty (text : List Char) (info : Info)
    (c1 c2 : List Char)
    (hb : getField info kBuyerName = []) (hs : getField info kSellerName = [])
    (hcs : companiesOf text = [c1, c2])
    (pre post : List (List Char)) (l0 : List Char)
    (hsplit : splitNl text = pre ++ l0 :: post)
    (hpre : ∀ l ∈ pre, lineHasKw buyerKws l = false ∧ lineHasKw sellerKws l = false)
    (hl0 : lineHasKw buyerKws l0 = true)
    (hnosell : ∀ l ∈ splitNl text, lineHasKw sellerKws l = false)
    (hwin : windowFind (splitNl text) pre.length (companiesOf text) = some c1) :
    getField (extract_company_info text info) kBuyerName = c1
    ∧ getField (extract_company_info text info) kSellerName = [] := by
  have hc1m : c1 ∈ companiesOf text := windowFind_mem _ _ _ _ hwin
  have hc1ne : c1 ≠ [] := companiesOf_ne_nil text c1 hc1m
  have hc2ne : c2 ≠ [] := companiesOf_ne_nil text c2 (by rw [hcs]; simp)
  have hc12 : c1 ≠ c2 := by
    have hnd := companiesOf_nodup text
    rw [hcs, List.nodup_cons] at hnd
    intro he
    exact hnd.1 (by rw [he]; simp)
  have hl0mem : l0 ∈ splitNl text := by rw [hsplit]; simp
  have hnosell0 : lineHasKw sellerKws l0 = false := hnosell l0 hl0mem
  have hpostns : ∀ l ∈ post, lineHasKw sellerKws l = false := by
    intro l hl
    exact hnosell l (by rw [hsplit]; simp [hl])
  have he : extract_company_info text info
      = companyAssignTail text
          (rolePass (splitNl text) (splitNl text) 0 (companiesOf text, info)) := rfl
  rw [hsplit] at hwin
  have hfold : rolePass (splitNl text) (splitNl text) 0 (companiesOf text, info)
      = ((companiesOf text).erase c1, setField info kBuyerName c1) := by
    conv_lhs => rw [show splitNl text = pre ++ l0 :: post from hsplit]
    rw [rolePass_append _ _ _ _ _ hpre, Nat.zero_add, rolePass_cons,
      roleStep_pivot _ _ _ _ _ c1 hl0 hb hwin hnosell0]
    apply rolePass_stuck
    · rw [getField_setField_self]
      exact hc1ne
    · exact hpostns
  rw [he, hfold, hcs, List.erase_cons_head]
  have hbv : getField (setField info kBuyerName c1) kBuyerName = c1 :=
    getField_setField_self _ _ _
  have hsv : getField (setField info kBuyerName c1) kSellerName = [] := by
    rw [getField_setField_ne _ _ _ _ (by decide)]
    exact hs
  have hfil : List.filter
      (fun c => !(c == getField (setField info kBuyerName c1) kBuyerName
        || c == getField (setField info kBuyerName c1) kSellerName)) [c2] = [c2] := by
    have hp : (!(c2 == getField (setField info kBuyerName c1) kBuyerName
        || c2 == getField (setField info kBuyerName c1) kSellerName)) = true := by
      rw [hbv, hsv]
      simp [Ne.symm hc12, hc2ne]
    simp [List.filter, hp]
  have hnf : nameFallbackStep ([c2], setField info kBuyerName c1)
      = setField info kBuyerName c1 := by
    simp only [nameFallbackStep]
    rw [hfil]
    rw [if_neg (show ¬([c2] : List (List Char)).isEmpty = true by simp)]
    rw [if_neg (show ¬getField (setField info kBuyerName c1) kBuyerName = [] from
      by rw [hbv]; exact hc1ne)]
    rw [if_neg (show ¬(getField (setField info kBuyerName c1) kSellerName = []
        ∧ 1 < List.length ([c2] : List (List Char))) from fun h => by simp at h)]
  show getField (codeAssignStep text (nameFallbackStep ([c2], setField info kBuyerName c1)))
        kBuyerName = c1
    ∧ getField (codeAssignStep text (nameFallbackStep ([c2], setField info kBuyerName c1)))
        kSellerName = []
  rw [hnf]
  constructor
  · rw [getField_codeAssignStep_buyerName, hbv]
  · rw [getField_codeAssignStep_sellerName, hsv]

/-- C4 amended, witnessed at the counterexample text. -/
theorem c4_amended_witness :
    getField (extract_company_info (lit "购买方：\n阿里巴巴网络公司\n腾讯计算机企业")
        initInvoiceInfo) kBuyerName = lit "阿里巴巴网络公司"
    ∧ getField (extract_company_info (lit "购买方：\n阿里巴巴网络公司\n腾讯计算机企业")
        initInvoiceInfo) kSellerName = [] :=
  c4_amended_buyer_first_seller_empty (lit "购买方：\n阿里巴巴网络公司\n腾讯计算机企业")
    initInvoiceInfo (lit "阿里巴巴网络公司") (lit "腾讯计算机企业")
    (by decide) (by decide) (by decide)
    [] [lit "阿里巴巴网络公司", lit "腾讯计算机企业"] (lit "购买方：")
    (by decide) (by simp) (by decide) (by decide) (by decide)
